import Mathlib

/-!
Verification development for the config-driven fetch-and-extract engine
(`src/web_fetcher.py`, `src/daily_news.py`, `src/config.py`).

The Python code is shallowly embedded: Python values flowing through the
engine (decoded JSON, configuration fields of unknown type) are modelled by
the inductive `PyVal`; Python exceptions are modelled by `Except Unit`;
the HTTP session, the `json.loads` library function and the wall clock are
modelled by an explicit `World` parameter.  String substitution re-implements
the semantics of Python's `str.replace` (left-to-right, non-overlapping,
replace all occurrences) for non-empty patterns, the only patterns the
program uses.
-/

/-- Model of a Python value as produced by `response.json()` / YAML config:
strings, integers, booleans, None, lists, and dicts (insertion-ordered
association lists with distinct keys, accessed first-match). -/
inductive PyVal where
  | str (s : String)
  | int (n : Int)
  | bool (b : Bool)
  | none
  | list (xs : List PyVal)
  | dict (fields : List (String × PyVal))
deriving Repr

/-- Python `d.get(k, default)` on a dict modelled as an association list:
the value of the first matching key, else the default is used by callers. -/
def dget (fs : List (String × PyVal)) (k : String) : Option PyVal :=
  (fs.find? (fun kv => kv.1 == k)).map (fun kv => kv.2)

/-- Python truthiness (`if v:`) for the modelled values: empty string, zero,
False, None, empty list and empty dict are falsy. -/
def pyTruthy : PyVal → Bool
  | .str s => !(s == "")
  | .int n => !(n == 0)
  | .bool b => b
  | .none => false
  | .list xs => !xs.isEmpty
  | .dict fs => !fs.isEmpty

mutual

/-- Python `str(v)`: identity on strings, decimal rendering of integers,
`True`/`False`/`None`, and a repr-style rendering of containers (string
escaping inside container reprs is not modelled; the program only applies
`str` to identifiers extracted from items, which are strings or numbers). -/
def pyStr : PyVal → String
  | .str s => s
  | .int n => toString n
  | .bool b => if b then "True" else "False"
  | .none => "None"
  | .list xs => "[" ++ String.intercalate ", " (pyStrList xs) ++ "]"
  | .dict fs => "dict" ++ String.intercalate ", " (pyStrFields fs)

def pyStrList : List PyVal → List String
  | [] => []
  | v :: vs => pyStr v :: pyStrList vs

def pyStrFields : List (String × PyVal) → List String
  | [] => []
  | kv :: rest => (kv.1 ++ ": " ++ pyStr kv.2) :: pyStrFields rest

end

/-- Python `for x in v`: lists yield their elements, dicts their keys,
strings their characters (as one-character strings); iterating any other
value raises `TypeError`. -/
def pyIter : PyVal → Except Unit (List PyVal)
  | .list xs => .ok xs
  | .dict fs => .ok (fs.map (fun kv => .str kv.1))
  | .str s => .ok (s.data.map (fun c => .str (String.mk [c])))
  | _ => .error ()

/-- Splitting a character list at every occurrence of a separator character;
`Python s.split(sep)` for a one-character separator (the program only splits
on `"."`).  The empty input yields `[""]`, as in Python. -/
def splitChars (sep : Char) : List Char → List (List Char)
  | [] => [[]]
  | c :: rest =>
      match splitChars sep rest with
      | [] => if c = sep then [[], []] else [[c]]
      | h :: t => if c = sep then [] :: h :: t else (c :: h) :: t

/-- Python `s.split(".")`, used to interpret dotted paths. -/
def pySplitDot (s : String) : List String :=
  (splitChars '.' s.data).map String.mk

/-- Python `s.lower()` restricted to the character repertoire the program
uses: ASCII letters are lowered, every other character (digits, punctuation,
CJK) is unchanged — on these, Python's Unicode lowering agrees. -/
def pyLower (s : String) : String :=
  String.mk (s.data.map Char.toLower)

/-- Python `s.upper()`, same repertoire remark as for `pyLower`. -/
def pyUpper (s : String) : String :=
  String.mk (s.data.map Char.toUpper)

/-- Substring test on character lists: does `needle` occur contiguously in
the second argument? -/
def infixOfC (needle : List Char) : List Char → Bool
  | [] => needle.isEmpty
  | c :: s => needle.isPrefixOf (c :: s) || infixOfC needle s

/-- Python `needle in hay` on strings: substring (infix) test. -/
def strContains (hay needle : String) : Bool :=
  infixOfC needle.data hay.data

/-- Fuelled kernel of Python `str.replace` on character lists: scan left to
right; where the (non-empty) pattern `p` matches, emit `v` and skip the
match; otherwise emit one character and advance.  Fuel bounds the number of
steps; callers supply fuel `≥` the list length, which is always enough. -/
def replaceFuel (p v : List Char) : Nat → List Char → List Char
  | _, [] => []
  | 0, s => s
  | fuel + 1, c :: s =>
      if p ≠ [] ∧ p.isPrefixOf (c :: s) then
        v ++ replaceFuel p v fuel (s.drop (p.length - 1))
      else
        c :: replaceFuel p v fuel s

/-- Python `str.replace` on character lists (for non-empty patterns, the only
ones the program uses; an empty pattern leaves the input unchanged here). -/
def replaceC (p v s : List Char) : List Char :=
  replaceFuel p v s.length s

/-- Python `s.replace(old, new)` (all occurrences, left to right). -/
def pyReplace (s old new : String) : String :=
  String.mk (replaceC old.data new.data s.data)

/-- The template substitution pass the fetcher applies to a string: replace
every `{ts}` with the timestamp string, then every `{page}` with the page
string — the exact composition `v.replace(ts).replace(page)` used at
`web_fetcher.py` lines 47 and 62. -/
def substTpl (ts pg s : String) : String :=
  pyReplace (pyReplace s "{ts}" ts) "{page}" pg

/-- One `api`/`pagination` block of a source configuration, with the same
field names and `.get` defaults as `WebFetcher.fetch_json_api` and
`WebFetcher.parse_items` read them.  Header and parameter values come from
YAML and may be of any type, hence `PyVal`; the remaining fields are read
as the types the code assumes. -/
structure ApiConfig where
  api_url : String := ""
  method : String := "GET"
  headers : List (String × PyVal) := []
  params : List (String × PyVal) := []
  list_path : String := "data"
  max_pages : Nat := 3
  title_path : String := "title"
  summary_path : String := "description"
  url_template : String := ""
  oid_path : String := "oid"

/-- One configured source as `WebFetcher.fetch` reads it: an optional `api`
block, an optional `pagination` fallback block, an optional `enabled` flag
(`source.get("enabled", True)`), and a name used only for logging.  `none`
for a block stands for Python "absent or falsy (empty dict)". -/
structure SourceConfig where
  name : String := "unknown"
  enabled : Option Bool := Option.none
  api : Option ApiConfig := Option.none
  pagination : Option ApiConfig := Option.none

/-- The source-group configuration `NewsCollector` holds: named groups,
each an ordered list of sources. -/
structure SourcesConfig where
  groups : List (String × List SourceConfig)

/-- Python `self.sources_config.get(g, [])`. -/
def sget (cfg : SourcesConfig) (g : String) : List SourceConfig :=
  ((cfg.groups.find? (fun kv => kv.1 == g)).map (fun kv => kv.2)).getD []

/-- One outbound HTTP request as the engine issues it: URL, method, the
substituted headers, the substituted query parameters (GET), and for POST
the substituted body-template text (which the code passes through
`json.loads` before sending). -/
structure Request where
  url : String
  method : String
  headers : List (String × String)
  params : List (String × PyVal)
  body : Option String

/-- One normalized record as built by `WebFetcher.parse_items`.  The title
and content carry whatever value the paths resolved to (`PyVal`); the score
is the Python float literal `0.9`, modelled as the rational `9/10` (no
arithmetic is ever performed on it). -/
structure Article where
  title : PyVal
  content : PyVal
  url : String
  score : Rat
  sourceTag : String

/-- The engine's external world: `resp i p` is the decoded JSON of the
response to the `p`-th page request of the `i`-th fetch invocation (or a
transport / HTTP-status / JSON-decoding failure), `tsOf i` the
epoch-millisecond clock reading at the start of the `i`-th fetch
invocation, and `loads` the `json.loads` library function. -/
structure World where
  resp : Nat → Nat → Except Unit PyVal
  tsOf : Nat → Nat
  loads : String → Except Unit PyVal

/-- The `listPath` traversal of `fetch_json_api` (lines 77–79): repeatedly
`items = items.get(key, [])`.  Calling `.get` on a non-dict raises
`AttributeError`, modelled as `Except.error`; a missing key yields the
default `[]`. -/
def resolveListPath : PyVal → List String → Except Unit PyVal
  | v, [] => .ok v
  | .dict fs, k :: ks => resolveListPath ((dget fs k).getD (.list [])) ks
  | _, _ :: _ => .error ()

/-- The guarded per-item path traversal of `parse_items` (lines 105–115):
`x = x.get(key, "") if isinstance(x, dict) else ""`, never raising. -/
def resolveField (item : PyVal) (path : String) : PyVal :=
  (pySplitDot path).foldl
    (fun v k => match v with
      | .dict fs => (dget fs k).getD (.str "")
      | _ => .str "")
    item

/-- The record `parse_items` appends for one raw item (lines 117–126):
content is the resolved summary, unmodified; the URL is the template with
`{oid}` substituted when the identifier is truthy, else empty. -/
def mkArticle (cfg : ApiConfig) (item : PyVal) : Article :=
  let oid := resolveField item cfg.oid_path
  { title := resolveField item cfg.title_path
    content := resolveField item cfg.summary_path
    url := if pyTruthy oid then pyReplace cfg.url_template "{oid}" (pyStr oid) else ""
    score := (9 : Rat) / 10
    sourceTag := "AIbase" }

/-- Embedding of `WebFetcher.parse_items` (lines 96–128): keep, in input
order, the records of the items whose resolved title is truthy. -/
def parse_items (items : List PyVal) (cfg : ApiConfig) : List Article :=
  match items with
  | [] => []
  | it :: rest =>
      if pyTruthy (resolveField it cfg.title_path) then
        mkArticle cfg it :: parse_items rest cfg
      else
        parse_items rest cfg

/-- The header-substitution loop of `fetch_json_api` (lines 40–42):
`final_headers[k] = v.replace("{ts}", ts)`.  A non-string header value has
no `.replace` attribute, so Python raises `AttributeError`, which no
handler catches: modelled as `Except.error`. -/
def substHeaders (ts : String) : List (String × PyVal) → Except Unit (List (String × String))
  | [] => .ok []
  | (k, .str v) :: rest =>
      (substHeaders ts rest).map (fun r => (k, pyReplace v "{ts}" ts) :: r)
  | (_, _) :: _ => .error ()

/-- The parameter-substitution loop of `fetch_json_api` (lines 44–49):
string values get `{ts}` replaced by the timestamp and `{page}` replaced by
the literal `"1"`; non-string values pass through unchanged. -/
def substParams (ts : String) (ps : List (String × PyVal)) : List (String × PyVal) :=
  ps.map (fun kv =>
    match kv.2 with
    | .str v => (kv.1, .str (pyReplace (pyReplace v "{ts}" ts) "{page}" "1"))
    | v => (kv.1, v))

/-- The per-page parameter pass of `fetch_json_api` (lines 55–56): replace
`{page}` by the current page number in string values. -/
def substPageParams (page : Nat) (ps : List (String × PyVal)) : List (String × PyVal) :=
  ps.map (fun kv =>
    match kv.2 with
    | .str v => (kv.1, .str (pyReplace v "{page}" (toString page)))
    | v => (kv.1, v))

/-- Building the request for one page inside the `try` block (lines 59–72).
For POST, the body is `final_params.get("json", "\x7b\x7d")` with `{ts}` and
`{page}` substituted and then parsed by `json.loads`; a non-string value or
a parse failure raises before any request is issued.  For GET, the per-page
parameters are attached.  The identifying user-agent header the session
always adds is not modelled (no claim mentions it). -/
def buildRequest (cfg : ApiConfig) (loads : String → Except Unit PyVal) (ts : String)
    (fh : List (String × String)) (fp : List (String × PyVal)) (page : Nat) :
    Except Unit Request :=
  if pyUpper cfg.method == "POST" then
    match (dget fp "json").getD (.str "\x7b\x7d") with
    | .str s =>
        (loads (pyReplace (pyReplace s "{ts}" ts) "{page}" (toString page))).map
          (fun _ =>
            { url := cfg.api_url, method := "POST", headers := fh, params := [],
              body := some (pyReplace (pyReplace s "{ts}" ts) "{page}" (toString page)) })
    | _ => .error ()
  else
    .ok { url := cfg.api_url, method := "GET", headers := fh,
          params := substPageParams page fp, body := Option.none }

/-- The pagination loop of `fetch_json_api` (lines 54–92), returning the
requests issued and the accumulated raw items.  Any exception inside the
`try` block (request build, transport, status, decoding, `listPath`
traversal on a non-dict, iterating a non-iterable) is caught and breaks the
loop, keeping what was accumulated; an empty (falsy) item list breaks
without an error.  `fuel` is the number of remaining pages. -/
def fetchLoop (cfg : ApiConfig) (loads : String → Except Unit PyVal)
    (env : Nat → Except Unit PyVal) (ts : String)
    (fh : List (String × String)) (fp : List (String × PyVal)) :
    Nat → Nat → List Request × List PyVal
  | _, 0 => ([], [])
  | page, fuel + 1 =>
      match buildRequest cfg loads ts fh fp page with
      | .error _ => ([], [])
      | .ok req =>
          match env page with
          | .error _ => ([req], [])
          | .ok data =>
              match resolveListPath data (pySplitDot cfg.list_path) with
              | .error _ => ([req], [])
              | .ok itemsVal =>
                  if pyTruthy itemsVal then
                    match pyIter itemsVal with
                    | .error _ => ([req], [])
                    | .ok items =>
                        let rest := fetchLoop cfg loads env ts fh fp (page + 1) fuel
                        (req :: rest.1, items ++ rest.2)
                  else ([req], [])

/-- Embedding of `WebFetcher.fetch_json_api` (lines 26–94): empty `api_url`
returns no items without touching headers or issuing requests; otherwise
substitute headers (which may raise, uncaught) and parameters, then run the
pagination loop for pages `1..max_pages`. -/
def fetch_json_api (cfg : ApiConfig) (loads : String → Except Unit PyVal)
    (env : Nat → Except Unit PyVal) (ts : Nat) :
    Except Unit (List Request × List PyVal) :=
  if cfg.api_url == "" then .ok ([], [])
  else
    (substHeaders (toString ts) cfg.headers).map (fun fh =>
      fetchLoop cfg loads env (toString ts) fh
        (substParams (toString ts) cfg.params) 1 cfg.max_pages)

/-- The `api`-then-`pagination` selection of `WebFetcher.fetch`
(lines 134–136). -/
def selectApi (src : SourceConfig) : Option ApiConfig :=
  match src.api with
  | some a => some a
  | Option.none => src.pagination

/-- Embedding of `WebFetcher.fetch` (lines 130–145): with an api (or
pagination) block, fetch pages and normalize the items; with neither, do
nothing. -/
def fetch (src : SourceConfig) (loads : String → Except Unit PyVal)
    (env : Nat → Except Unit PyVal) (ts : Nat) :
    Except Unit (List Request × List Article) :=
  match selectApi src with
  | some apiCfg =>
      (fetch_json_api apiCfg loads env ts).map (fun r => (r.1, parse_items r.2 apiCfg))
  | Option.none => .ok ([], [])

/-- The per-group loop of `NewsCollector.collect` (lines 160–164 and
167–171): fetch each source whose `enabled` flag is absent or true, in
declared order, concatenating requests and articles.  `i` numbers the fetch
invocations so the `World` can answer each one. -/
def collectSources (w : World) : Nat → List SourceConfig →
    Except Unit (Nat × List Request × List Article)
  | i, [] => .ok (i, [], [])
  | i, src :: rest =>
      if src.enabled.getD true then
        (fetch src w.loads (w.resp i) (w.tsOf i)).bind (fun r =>
          (collectSources w (i + 1) rest).map (fun t =>
            (t.1, r.1 ++ t.2.1, r.2 ++ t.2.2)))
      else collectSources w i rest

/-- Embedding of `NewsCollector.collect` before the final truncation: the
`daily` group's sources then the `web` group's sources, with the requests
they issued. -/
def collectRun (cfg : SourcesConfig) (w : World) :
    Except Unit (List Request × List Article) :=
  (collectSources w 0 (sget cfg "daily")).bind (fun d =>
    (collectSources w d.1 (sget cfg "web")).map (fun we =>
      (d.2.1 ++ we.2.1, d.2.2 ++ we.2.2)))

/-- Embedding of `NewsCollector.collect` (lines 155–173): all articles of
the enabled `daily` then `web` sources, truncated to the first `max_items`
(`all_articles[:max_items]`). -/
def collect (cfg : SourcesConfig) (w : World) (max_items : Nat) :
    Except Unit (List Article) :=
  (collectRun cfg w).map (fun r => r.2.take max_items)

/-- The category keyword table `TECH_CATEGORIES` of `src/config.py`
(lines 42–49), in declared order. -/
def TECH_CATEGORIES : List (String × List String) :=
  [("大模型", ["大模型", "LLM", "GPT", "Claude", "Gemini", "MoE", "模型训练", "模型发布"]),
   ("具身智能", ["具身智能", "机器人", "人形机器人", "自动驾驶", "具身AI"]),
   ("智能体", ["智能体", "Agent", "AI Agent", "多智能体", "自主决策"]),
   ("应用落地", ["AI应用", "落地", "商业化", "产品发布", "行业应用"]),
   ("算力基础设施", ["算力", "GPU", "芯片", "训练集群", "推理优化"]),
   ("开源动态", ["开源", "Meta", "Llama", "Mistral", "Qwen", "模型权重"])]

/-- The inner keyword scan of `categorize_article`: does some keyword,
lowercased, occur in the lowercased text?  (The code's inner loop returns
at the first matching keyword; whether any keyword matches is all that
determines the result.) -/
def catMatch (text : String) (kws : List String) : Bool :=
  kws.any (fun kw => strContains text (pyLower kw))

/-- The outer category loop of `categorize_article` (`daily_news.py`
lines 129–133): first category whose keywords match, else `"其他"`. -/
def catLoop (text : String) : List (String × List String) → String
  | [] => "其他"
  | c :: rest => if catMatch text c.2 then c.1 else catLoop text rest

/-- The classifier over an explicit table: the code's
`text = (title + " " + content).lower()` followed by the table scan. -/
def categorizeWith (table : List (String × List String)) (title content : String) : String :=
  catLoop (pyLower (title ++ " " ++ content)) table

/-- Embedding of `categorize_article` (`daily_news.py` lines 127–133),
which scans the fixed `TECH_CATEGORIES` table. -/
def categorize_article (title : String) (content : String) : String :=
  categorizeWith TECH_CATEGORIES title content

/-- Classifier following the claim's words verbatim: first category in
table order with a keyword that is a case-insensitive substring of the
lowercased concatenation of title and content (no separator), else the
default category. -/
def classifyClaim (table : List (String × List String)) (title content : String) : String :=
  ((table.find? (fun c => catMatch (pyLower (title ++ content)) c.2)).map
    (fun c => c.1)).getD "其他"

/-- Classifier following the claim amended to the code's text: the
concatenation is title, a single space, then content. -/
def classifySpec (table : List (String × List String)) (title content : String) : String :=
  ((table.find? (fun c => catMatch (pyLower (title ++ " " ++ content)) c.2)).map
    (fun c => c.1)).getD "其他"

/-- A world in which every request fails, every `json.loads` fails, and the
clock reads 999: the harshest environment for "collect never fails". -/
def worldDown : World :=
  { resp := fun _ _ => .error (), tsOf := fun _ => 999, loads := fun _ => .error () }

/-- An api block whose header value is the integer 1, as YAML
`headers: {k: 1}` would produce. -/
def apiBadHeader : ApiConfig :=
  { api_url := "u", headers := [("k", PyVal.int 1)] }

/-- A source carrying `apiBadHeader`. -/
def srcBadHeader : SourceConfig :=
  { name := "bad", api := some apiBadHeader }

/-- A harmless well-typed source. -/
def srcPlain : SourceConfig :=
  { name := "plain", api := some { api_url := "u" } }

/-- A configuration whose `daily` group holds the bad-header source and
then a well-typed source. -/
def cfgBadHeader : SourcesConfig :=
  ⟨[("daily", [srcBadHeader, srcPlain])]⟩

/-- A well-typed configuration with one `daily` source. -/
def cfgPlain : SourcesConfig :=
  ⟨[("daily", [srcPlain])]⟩

/-- Api block for the page-placeholder experiment: one parameter holding
exactly the `{page}` placeholder, two pages. -/
def apiPageParam : ApiConfig :=
  { api_url := "u", params := [("p", PyVal.str "{page}")], max_pages := 2 }

/-- An environment in which every page decodes to `{"data": ["x"]}` — a
non-empty page, so pagination always continues. -/
def envAllFull : Nat → Except Unit PyVal :=
  fun _ => .ok (.dict [("data", .list [.str "x"])])

/-- An environment in which page 1 decodes to `{"data": ["x"]}` and every
later page to `{"data": []}`: one non-empty page followed by empty pages. -/
def envOneFull : Nat → Except Unit PyVal :=
  fun p => if p = 1 then .ok (.dict [("data", .list [.str "x"])])
           else .ok (.dict [("data", .list [])])

/-- Api block with three pages allowed, everything else default. -/
def apiThreePages : ApiConfig :=
  { api_url := "u", max_pages := 3 }

/-- A `json.loads` stand-in that always fails (never consulted by GET
sources). -/
def loadsFail : String → Except Unit PyVal := fun _ => .error ()

/-- A summary of 201 characters, one more than the cap the spec names. -/
def longSummary : String := String.mk (List.replicate 201 'a')

/-- A raw item whose title is "T" and whose description has 201
characters. -/
def itemLong : PyVal :=
  .dict [("title", .str "T"), ("description", .str longSummary)]

/-- The default api block (all `.get` defaults), as `parse_items` would see
for a config that sets nothing. -/
def apiDefault : ApiConfig := {}

/-- Is a Python value a string?  (A non-string header value makes the
header-substitution loop raise.) -/
def isStrVal : PyVal → Bool
  | .str _ => true
  | _ => false

/-- All header values of an api block are strings — the condition under
which `fetch_json_api`'s uncaught header substitution cannot raise. -/
def strHeaders (a : ApiConfig) : Bool :=
  a.headers.all (fun kv => isStrVal kv.2)

/-- The selected api block of a source (if any) has string-valued headers. -/
def wellTypedSrc (s : SourceConfig) : Bool :=
  match selectApi s with
  | some a => strHeaders a
  | Option.none => true

/-- The GET request `fetch_json_api` issues for a given page: the per-page
`{page}` substitution applied to the already once-substituted parameters. -/
def mkGetRequest (cfg : ApiConfig) (fh : List (String × String))
    (fp : List (String × PyVal)) (page : Nat) : Request :=
  { url := cfg.api_url, method := "GET", headers := fh,
    params := substPageParams page fp, body := Option.none }

/-- A source with neither an `api` nor a `pagination` block. -/
def srcNoApi : SourceConfig := { name := "empty" }

theorem replaceFuel_nil (p v : List Char) (n : Nat) : replaceFuel p v n [] = [] := by
  cases n <;> rfl

theorem replaceFuel_cons (p v : List Char) (fuel : Nat) (c : Char) (s : List Char) :
    replaceFuel p v (fuel + 1) (c :: s) =
      if p ≠ [] ∧ p.isPrefixOf (c :: s) then
        v ++ replaceFuel p v fuel (s.drop (p.length - 1))
      else c :: replaceFuel p v fuel s := rfl

theorem replaceFuel_congr (p v : List Char) :
    ∀ n m s, s.length ≤ n → s.length ≤ m → replaceFuel p v n s = replaceFuel p v m s := by
  intro n
  induction n with
  | zero =>
    intro m s hn _
    have hs : s = [] := List.eq_nil_of_length_eq_zero (Nat.le_zero.mp hn)
    subst hs
    simp [replaceFuel_nil]
  | succ n ih =>
    intro m s hn hm
    cases s with
    | nil => simp [replaceFuel_nil]
    | cons c t =>
      cases m with
      | zero => simp at hm
      | succ m =>
        rw [replaceFuel_cons, replaceFuel_cons]
        have ht : t.length ≤ n := by simp at hn; omega
        have htm : t.length ≤ m := by simp at hm; omega
        by_cases hp : p ≠ [] ∧ p.isPrefixOf (c :: t)
        · rw [if_pos hp, if_pos hp,
            ih m (t.drop (p.length - 1))
              (le_trans (by rw [List.length_drop]; exact Nat.sub_le _ _) ht)
              (le_trans (by rw [List.length_drop]; exact Nat.sub_le _ _) htm)]
        · rw [if_neg hp, if_neg hp, ih m t ht htm]

theorem replaceC_nil (p v : List Char) : replaceC p v [] = [] := rfl

theorem replaceC_cons_match (p v : List Char) (c : Char) (s : List Char)
    (hp : p ≠ []) (hpre : p <+: (c :: s)) :
    replaceC p v (c :: s) = v ++ replaceC p v (s.drop (p.length - 1)) := by
  have hb : p.isPrefixOf (c :: s) = true := List.isPrefixOf_iff_prefix.mpr hpre
  show replaceFuel p v (s.length + 1) (c :: s) = _
  rw [replaceFuel_cons, if_pos ⟨hp, hb⟩]
  exact congrArg (v ++ ·)
    (replaceFuel_congr p v s.length (s.drop (p.length - 1)).length (s.drop (p.length - 1))
      (by rw [List.length_drop]; exact Nat.sub_le _ _) le_rfl)

theorem replaceC_cons_nomatch (p v : List Char) (c : Char) (s : List Char)
    (h : ¬ (p ≠ [] ∧ p <+: (c :: s))) :
    replaceC p v (c :: s) = c :: replaceC p v s := by
  have hb : ¬ (p ≠ [] ∧ p.isPrefixOf (c :: s)) := by
    intro hc
    exact h ⟨hc.1, List.isPrefixOf_iff_prefix.mp hc.2⟩
  show replaceFuel p v (s.length + 1) (c :: s) = _
  rw [replaceFuel_cons, if_neg hb]
  rfl

theorem replaceC_no_occurrence (p v : List Char) :
    ∀ s, ¬ (p <:+: s) → replaceC p v s = s := by
  intro s
  induction s with
  | nil => intro _; rfl
  | cons c t ih =>
    intro h
    have hnp : ¬ p <+: (c :: t) := fun hpre => h hpre.isInfix
    rw [replaceC_cons_nomatch p v c t (fun hc => hnp hc.2),
      ih (fun hi => h (List.infix_cons_iff.mpr (Or.inr hi)))]

theorem prefix_of_replaceC (p v : List Char) (hv : v ≠ []) :
    ∀ s q, q ≠ [] → (∀ a ∈ q, a ∉ v) → q <+: replaceC p v s → q <+: s := by
  intro s
  induction s with
  | nil =>
    intro q hq _ hpre
    rw [replaceC_nil] at hpre
    exact absurd (List.prefix_nil.mp hpre) hq
  | cons c t ih =>
    intro q hq hdisj hpre
    by_cases hm : p ≠ [] ∧ p <+: (c :: t)
    · rw [replaceC_cons_match p v c t hm.1 hm.2] at hpre
      cases q with
      | nil => exact absurd rfl hq
      | cons a q' =>
        cases v with
        | nil => exact absurd rfl hv
        | cons b v' =>
          rw [List.cons_append] at hpre
          have hab : a = b := (List.cons_prefix_cons.mp hpre).1
          exact absurd (by rw [hab]; exact List.mem_cons_self b v')
            (hdisj a (List.mem_cons_self a q'))
    · rw [replaceC_cons_nomatch p v c t hm] at hpre
      cases q with
      | nil => exact absurd rfl hq
      | cons a q' =>
        obtain ⟨hac, hq'⟩ := List.cons_prefix_cons.mp hpre
        subst hac
        by_cases hqe : q' = []
        · subst hqe
          exact List.cons_prefix_cons.mpr ⟨rfl, List.nil_prefix⟩
        · exact List.cons_prefix_cons.mpr
            ⟨rfl, ih q' hqe (fun x hx => hdisj x (List.mem_cons_of_mem _ hx)) hq'⟩

theorem pattern_not_in_replaceC (p v : List Char) (hp : p ≠ []) (hv : v ≠ [])
    (hdisj : ∀ a ∈ v, a ∉ p) :
    ∀ n s, s.length ≤ n → ¬ (p <:+: replaceC p v s) := by
  intro n
  induction n with
  | zero =>
    intro s hs hinf
    have hse : s = [] := List.eq_nil_of_length_eq_zero (Nat.le_zero.mp hs)
    subst hse
    rw [replaceC_nil] at hinf
    exact hp (List.eq_nil_of_infix_nil hinf)
  | succ n ih =>
    intro s hs hinf
    cases s with
    | nil =>
      rw [replaceC_nil] at hinf
      exact hp (List.eq_nil_of_infix_nil hinf)
    | cons c t =>
      have ht : t.length ≤ n := by simp at hs; omega
      by_cases hm : p ≠ [] ∧ p <+: (c :: t)
      · rw [replaceC_cons_match p v c t hm.1 hm.2] at hinf
        have hdR : (t.drop (p.length - 1)).length ≤ n :=
          le_trans (by rw [List.length_drop]; exact Nat.sub_le _ _) ht
        obtain ⟨l, r, heq⟩ := hinf
        rw [List.append_assoc] at heq
        rcases List.append_eq_append_iff.mp heq with ⟨a', hv', hpr⟩ | ⟨c', _, hR'⟩
        · rcases List.append_eq_append_iff.mp hpr with ⟨b', ha', _⟩ | ⟨c'', hp', hR2⟩
          · cases p with
            | nil => exact hp rfl
            | cons ph pt =>
              have hmem : ph ∈ v := by
                rw [hv', ha']
                exact List.mem_append_right l (List.mem_append_left b' (List.mem_cons_self ph pt))
              exact hdisj ph hmem (List.mem_cons_self ph pt)
          · by_cases ha : a' = []
            · subst ha
              simp only [List.nil_append] at hpr
              exact ih (t.drop (p.length - 1)) hdR ⟨[], r, by simpa using hpr⟩
            · cases a' with
              | nil => exact absurd rfl ha
              | cons ah at' =>
                have hmem : ah ∈ v := by
                  rw [hv']
                  exact List.mem_append_right l (List.mem_cons_self ah at')
                have hmp : ah ∈ p := by
                  rw [hp']
                  exact List.mem_append_left c'' (List.mem_cons_self ah at')
                exact hdisj ah hmem hmp
        · exact ih (t.drop (p.length - 1)) hdR
            ⟨c', r, by rw [List.append_assoc]; exact hR'.symm⟩
      · rw [replaceC_cons_nomatch p v c t hm] at hinf
        rcases List.infix_cons_iff.mp hinf with hpre | hinf'
        · cases p with
          | nil => exact hp rfl
          | cons a p' =>
            obtain ⟨hac, hp'⟩ := List.cons_prefix_cons.mp hpre
            subst hac
            by_cases hpe : p' = []
            · subst hpe
              exact hm ⟨hp, List.cons_prefix_cons.mpr ⟨rfl, List.nil_prefix⟩⟩
            · have hq' : ∀ x ∈ p', x ∉ v := fun x hx hxv =>
                hdisj x hxv (List.mem_cons_of_mem _ hx)
              have hpt := prefix_of_replaceC (a :: p') v hv t p' hpe hq' hp'
              exact hm ⟨hp, List.cons_prefix_cons.mpr ⟨rfl, hpt⟩⟩
        · exact ih t ht hinf'

theorem no_new_occurrence (p v q : List Char) (hq : q ≠ []) (hv : v ≠ [])
    (hdisj : ∀ a ∈ v, a ∉ q) :
    ∀ n s, s.length ≤ n → ¬ (q <:+: s) → ¬ (q <:+: replaceC p v s) := by
  intro n
  induction n with
  | zero =>
    intro s hs _ hinf
    have hse : s = [] := List.eq_nil_of_length_eq_zero (Nat.le_zero.mp hs)
    subst hse
    rw [replaceC_nil] at hinf
    exact hq (List.eq_nil_of_infix_nil hinf)
  | succ n ih =>
    intro s hs hns hinf
    cases s with
    | nil =>
      rw [replaceC_nil] at hinf
      exact hq (List.eq_nil_of_infix_nil hinf)
    | cons c t =>
      have ht : t.length ≤ n := by simp at hs; omega
      have hnt : ¬ (q <:+: t) := fun h => hns (List.infix_cons_iff.mpr (Or.inr h))
      by_cases hm : p ≠ [] ∧ p <+: (c :: t)
      · rw [replaceC_cons_match p v c t hm.1 hm.2] at hinf
        have hdR : (t.drop (p.length - 1)).length ≤ n :=
          le_trans (by rw [List.length_drop]; exact Nat.sub_le _ _) ht
        have hnd : ¬ (q <:+: t.drop (p.length - 1)) := fun h =>
          hnt (h.trans (List.drop_suffix _ t).isInfix)
        obtain ⟨l, r, heq⟩ := hinf
        rw [List.append_assoc] at heq
        rcases List.append_eq_append_iff.mp heq with ⟨a', hv', hpr⟩ | ⟨c', _, hR'⟩
        · rcases List.append_eq_append_iff.mp hpr with ⟨b', ha', _⟩ | ⟨c'', hq', hR2⟩
          · cases q with
            | nil => exact hq rfl
            | cons qh qt =>
              have hmem : qh ∈ v := by
                rw [hv', ha']
                exact List.mem_append_right l (List.mem_append_left b' (List.mem_cons_self qh qt))
              exact hdisj qh hmem (List.mem_cons_self qh qt)
          · by_cases ha : a' = []
            · subst ha
              simp only [List.nil_append] at hpr
              exact ih (t.drop (p.length - 1)) hdR hnd ⟨[], r, by simpa using hpr⟩
            · cases a' with
              | nil => exact absurd rfl ha
              | cons ah at' =>
                have hmem : ah ∈ v := by
                  rw [hv']
                  exact List.mem_append_right l (List.mem_cons_self ah at')
                have hmq : ah ∈ q := by
                  rw [hq']
                  exact List.mem_append_left c'' (List.mem_cons_self ah at')
                exact hdisj ah hmem hmq
        · exact ih (t.drop (p.length - 1)) hdR hnd
            ⟨c', r, by rw [List.append_assoc]; exact hR'.symm⟩
      · rw [replaceC_cons_nomatch p v c t hm] at hinf
        rcases List.infix_cons_iff.mp hinf with hpre | hinf'
        · cases q with
          | nil => exact hq rfl
          | cons a q' =>
            obtain ⟨hac, hq'⟩ := List.cons_prefix_cons.mp hpre
            subst hac
            by_cases hqe : q' = []
            · subst hqe
              exact hns ⟨[], t, by simp⟩
            · have hd' : ∀ x ∈ q', x ∉ v := fun x hx hxv =>
                hdisj x hxv (List.mem_cons_of_mem _ hx)
              have hqt := prefix_of_replaceC p v hv t q' hqe hd' hq'
              exact hns (List.IsPrefix.isInfix (List.cons_prefix_cons.mpr ⟨rfl, hqt⟩))
        · exact ih t ht hnt hinf'

theorem parse_items_filterMap (cfg : ApiConfig) :
    ∀ items : List PyVal, parse_items items cfg =
      items.filterMap (fun it =>
        if pyTruthy (resolveField it cfg.title_path) then some (mkArticle cfg it)
        else Option.none) := by
  intro items
  induction items with
  | nil => rfl
  | cons it rest ih =>
    by_cases h : pyTruthy (resolveField it cfg.title_path) = true
    · simp [parse_items, List.filterMap_cons, h, ih]
    · simp [parse_items, List.filterMap_cons, h, ih]

theorem substHeaders_ok (ts : String) :
    ∀ hs : List (String × PyVal), (∀ kv ∈ hs, isStrVal kv.2 = true) →
      ∃ r, substHeaders ts hs = .ok r := by
  intro hs
  induction hs with
  | nil => intro _; exact ⟨[], rfl⟩
  | cons kv rest ih =>
    intro h
    obtain ⟨r, hr⟩ := ih (fun x hx => h x (List.mem_cons_of_mem _ hx))
    obtain ⟨k, v⟩ := kv
    have hv := h (k, v) (List.mem_cons_self _ _)
    cases v with
    | str s => exact ⟨(k, pyReplace s "{ts}" ts) :: r, by rw [substHeaders, hr]; rfl⟩
    | int n => simp [isStrVal] at hv
    | bool b => simp [isStrVal] at hv
    | none => simp [isStrVal] at hv
    | list xs => simp [isStrVal] at hv
    | dict fs => simp [isStrVal] at hv

theorem fetch_json_api_ok (cfg : ApiConfig) (loads : String → Except Unit PyVal)
    (env : Nat → Except Unit PyVal) (ts : Nat) (h : strHeaders cfg = true) :
    ∃ r, fetch_json_api cfg loads env ts = .ok r := by
  by_cases hu : cfg.api_url = ""
  · exact ⟨([], []), by simp [fetch_json_api, hu]⟩
  · obtain ⟨fh, hfh⟩ := substHeaders_ok (toString ts) cfg.headers
      (fun kv hkv => by
        have := List.all_eq_true.mp h kv hkv
        exact this)
    exact ⟨fetchLoop cfg loads env (toString ts) fh
        (substParams (toString ts) cfg.params) 1 cfg.max_pages,
      by unfold fetch_json_api; rw [if_neg (by simpa using hu), hfh]; rfl⟩

theorem fetch_ok (src : SourceConfig) (loads : String → Except Unit PyVal)
    (env : Nat → Except Unit PyVal) (ts : Nat) (h : wellTypedSrc src = true) :
    ∃ r, fetch src loads env ts = .ok r := by
  unfold fetch
  cases hsel : selectApi src with
  | none => exact ⟨([], []), rfl⟩
  | some a =>
    have ha : strHeaders a = true := by
      unfold wellTypedSrc at h
      rw [hsel] at h
      exact h
    obtain ⟨r, hr⟩ := fetch_json_api_ok a loads env ts ha
    refine ⟨(r.1, parse_items r.2 a), ?_⟩
    show Except.map (fun r => (r.1, parse_items r.2 a)) (fetch_json_api a loads env ts) =
      Except.ok (r.1, parse_items r.2 a)
    rw [hr]
    rfl

theorem collectSources_ok (w : World) :
    ∀ (l : List SourceConfig) (i : Nat), (∀ src ∈ l, wellTypedSrc src = true) →
      ∃ r, collectSources w i l = .ok r := by
  intro l
  induction l with
  | nil => intro i _; exact ⟨(i, [], []), rfl⟩
  | cons src rest ih =>
    intro i h
    by_cases he : src.enabled.getD true = true
    · obtain ⟨r, hr⟩ := fetch_ok src w.loads (w.resp i) (w.tsOf i)
        (h src (List.mem_cons_self _ _))
      obtain ⟨t, htr⟩ := ih (i + 1) (fun x hx => h x (List.mem_cons_of_mem _ hx))
      exact ⟨(t.1, r.1 ++ t.2.1, r.2 ++ t.2.2), by rw [collectSources, if_pos he, hr, htr]; rfl⟩
    · obtain ⟨t, htr⟩ := ih i (fun x hx => h x (List.mem_cons_of_mem _ hx))
      exact ⟨t, by rw [collectSources, if_neg he, htr]⟩

theorem catLoop_eq_find (text : String) :
    ∀ table, catLoop text table =
      ((table.find? (fun c => catMatch text c.2)).map (fun c => c.1)).getD "其他" := by
  intro table
  induction table with
  | nil => rfl
  | cons c rest ih =>
    by_cases h : catMatch text c.2 = true
    · simp [catLoop, h]
    · simp [catLoop, h, ih]

theorem buildRequest_get (cfg : ApiConfig) (loads : String → Except Unit PyVal)
    (ts : String) (fh : List (String × String)) (fp : List (String × PyVal))
    (page : Nat) (hm : pyUpper cfg.method ≠ "POST") :
    buildRequest cfg loads ts fh fp page = .ok (mkGetRequest cfg fh fp page) := by
  unfold buildRequest
  rw [if_neg (by simpa using hm)]
  rfl

theorem fetchLoop_run (cfg : ApiConfig) (loads : String → Except Unit PyVal)
    (env : Nat → Except Unit PyVal) (ts : String)
    (fh : List (String × String)) (fp : List (String × PyVal))
    (items : Nat → List PyVal)
    (hm : pyUpper cfg.method ≠ "POST") :
    ∀ (N start fuel : Nat),
      (∀ p, start ≤ p → p ≤ start + N →
        ∃ d, env p = .ok d ∧
          resolveListPath d (pySplitDot cfg.list_path) = .ok (.list (items p))) →
      (∀ p, start ≤ p → p < start + N → items p ≠ []) →
      items (start + N) = [] →
      N + 1 ≤ fuel →
      fetchLoop cfg loads env ts fh fp start fuel =
        ((List.range' start (N + 1)).map (mkGetRequest cfg fh fp),
         ((List.range' start N).map items).flatten) := by
  intro N
  induction N with
  | zero =>
    intro start fuel hresp hne hlast hfuel
    cases fuel with
    | zero => omega
    | succ f =>
      obtain ⟨d, hd, hres⟩ := hresp start le_rfl (by omega)
      rw [show start + 0 = start from rfl] at hlast
      rw [hlast] at hres
      simp only [fetchLoop, buildRequest_get cfg loads ts fh fp start hm, hd, hres]
      simp [pyTruthy, List.range']
  | succ N ih =>
    intro start fuel hresp hne hlast hfuel
    cases fuel with
    | zero => omega
    | succ f =>
      obtain ⟨d, hd, hres⟩ := hresp start le_rfl (by omega)
      have hne0 : items start ≠ [] := hne start le_rfl (by omega)
      have hih := ih (start + 1) f
        (fun p h1 h2 => hresp p (by omega) (by omega))
        (fun p h1 h2 => hne p (by omega) (by omega))
        (by rw [show start + 1 + N = start + (N + 1) from by omega]; exact hlast)
        (by omega)
      have htr : pyTruthy (.list (items start)) = true := by
        simp [pyTruthy]
        exact hne0
      simp only [fetchLoop, buildRequest_get cfg loads ts fh fp start hm, hd, hres, htr,
        if_true, pyIter]
      rw [hih]
      simp [List.range'_succ]

/-- Claim C1 (corrected), counterexample: the claim says no error arising
while fetching a source propagates out of `collect` for every source-group
configuration, but a source whose api block has a non-string header value
(YAML `headers: {k: 1}`) makes the uncaught header substitution
`v.replace("{ts}", ts)` raise `AttributeError`, which escapes `collect` and
also aborts the later well-typed source in the same group. -/
theorem collect_raises_on_nonstring_header :
    collect cfgBadHeader worldDown 20 = .error () := rfl

/-- Claim C1 (corrected, amended): for every source-group configuration
whose sources all have string-valued header maps in their selected api
block, and every world — including worlds in which every request, every
body parse and every source fails — `collect` never fails: it returns some
(possibly empty) list. -/
theorem collect_never_fails (cfg : SourcesConfig) (w : World) (k : Nat)
    (hd : ∀ src ∈ sget cfg "daily", wellTypedSrc src = true)
    (hw : ∀ src ∈ sget cfg "web", wellTypedSrc src = true) :
    ∃ out, collect cfg w k = .ok out := by
  obtain ⟨d, hdr⟩ := collectSources_ok w (sget cfg "daily") 0 hd
  obtain ⟨we, hwr⟩ := collectSources_ok w (sget cfg "web") d.1 hw
  have hrun : collectRun cfg w = .ok (d.2.1 ++ we.2.1, d.2.2 ++ we.2.2) := by
    unfold collectRun
    rw [hdr]
    show (collectSources w d.1 (sget cfg "web")).map _ = _
    rw [hwr]
    rfl
  exact ⟨(d.2.2 ++ we.2.2).take k, by unfold collect; rw [hrun]; rfl⟩

/-- Witness for `collect_never_fails` at a concrete well-typed
configuration and the all-failing world. -/
theorem collect_never_fails_witness :
    ∃ out, collect cfgPlain worldDown 20 = .ok out :=
  collect_never_fails cfgPlain worldDown 20 (by decide) (by decide)

/-- Claim C2 (code_bug): the first substitution pass already replaces every
`{page}` in the parameters with the literal `"1"`, so the per-page pass
finds nothing to substitute and the request issued for page 2 carries
`"1"`, not `"2"`: with params `{"p": "{page}"}` and two non-empty pages,
both issued requests carry `p = "1"`. -/
theorem page_placeholder_stuck_at_one :
    (fetch_json_api apiPageParam loadsFail envAllFull 999).map
      (fun r => r.1.map (fun q => q.params)) =
    .ok [[("p", PyVal.str "1")], [("p", PyVal.str "1")]] := rfl

/-- Claim C3 (corrected), counterexample: with one non-empty page followed
by an empty page and `maxPages = 3` (so N = 1 < maxPages), the fetcher
issues 2 page requests, not N = 1 — the empty page must itself be fetched
to be seen. -/
theorem pagination_requests_exceed_N :
    (fetch_json_api apiThreePages loadsFail envOneFull 999).map
      (fun r => (r.1.length, r.2)) = .ok (2, [PyVal.str "x"]) := rfl

/-- Claim C3 (corrected, amended): for a non-POST source whose pages
1..N resolve via `listPath` to non-empty item lists and whose page N+1
resolves to an empty list, with N + 1 ≤ maxPages, the pagination loop
issues exactly the N+1 page requests 1..N+1 (the last one discovering the
empty page, never reaching maxPages when N+1 < maxPages), and the raw-item
accumulator is exactly the concatenation of the items of pages 1..N in
page order with within-page order preserved. -/
theorem pagination_termination (cfg : ApiConfig) (loads : String → Except Unit PyVal)
    (env : Nat → Except Unit PyVal) (ts : String)
    (fh : List (String × String)) (fp : List (String × PyVal))
    (items : Nat → List PyVal) (N : Nat)
    (hm : pyUpper cfg.method ≠ "POST")
    (hN : N + 1 ≤ cfg.max_pages)
    (hresp : ∀ p, 1 ≤ p → p ≤ N + 1 → ∃ d, env p = .ok d ∧
        resolveListPath d (pySplitDot cfg.list_path) = .ok (.list (items p)))
    (hne : ∀ p, 1 ≤ p → p ≤ N → items p ≠ [])
    (hemp : items (N + 1) = []) :
    fetchLoop cfg loads env ts fh fp 1 cfg.max_pages =
      ((List.range' 1 (N + 1)).map (mkGetRequest cfg fh fp),
       ((List.range' 1 N).map items).flatten) :=
  fetchLoop_run cfg loads env ts fh fp items hm N 1 cfg.max_pages
    (fun p h1 h2 => hresp p h1 (by omega))
    (fun p h1 h2 => hne p h1 (by omega))
    (by rw [show 1 + N = N + 1 from by omega]; exact hemp)
    hN

/-- Witness for `pagination_termination` with N = 1 under `envOneFull`. -/
theorem pagination_termination_witness :
    fetchLoop apiThreePages loadsFail envOneFull "999" [] [] 1 apiThreePages.max_pages =
      ((List.range' 1 2).map (mkGetRequest apiThreePages [] []), [PyVal.str "x"]) := by
  have h := pagination_termination apiThreePages loadsFail envOneFull "999" [] []
    (fun p => if p = 1 then [PyVal.str "x"] else []) 1 (by decide) (by decide)
    (by
      intro p h1 h2
      interval_cases p
      · exact ⟨_, rfl, rfl⟩
      · exact ⟨_, rfl, rfl⟩)
    (by
      intro p h1 h2
      interval_cases p
      simp)
    (by rfl)
  simpa using h

set_option maxRecDepth 4000 in
/-- Claim C4 (corrected), counterexample: the normalizer performs no
truncation — an item whose resolved summary has 201 characters yields a
record whose content is exactly that 201-character string, exceeding the
200-character cap the claim asserts.  (The `[:200]` truncation lives in
the search-result collector of `daily_news.py`, not in
`WebFetcher.parse_items`.) -/
theorem content_not_truncated :
    (parse_items [itemLong] apiDefault).map (fun a => a.content) =
      [PyVal.str longSummary] ∧ 200 < longSummary.length :=
  ⟨rfl, by decide⟩

/-- Claim C4 (corrected, amended): every record the normalizer emits has
content equal to the resolved summary of its raw item, unmodified — no
length cap is applied at this stage. -/
theorem content_is_resolved_summary (items : List PyVal) (cfg : ApiConfig)
    (r : Article) (hr : r ∈ parse_items items cfg) :
    ∃ it ∈ items, r.content = resolveField it cfg.summary_path := by
  rw [parse_items_filterMap cfg items] at hr
  obtain ⟨it, hit, hsome⟩ := List.mem_filterMap.mp hr
  by_cases h : pyTruthy (resolveField it cfg.title_path) = true
  · rw [if_pos h] at hsome
    exact ⟨it, hit, by rw [← Option.some.inj hsome]; rfl⟩
  · rw [if_neg h] at hsome
    exact absurd hsome (by simp)

/-- Witness for `content_is_resolved_summary` at the 201-character item. -/
theorem content_is_resolved_summary_witness :
    ∃ it ∈ [itemLong],
      (mkArticle apiDefault itemLong).content = resolveField it apiDefault.summary_path :=
  content_is_resolved_summary [itemLong] apiDefault (mkArticle apiDefault itemLong)
    (by rw [show parse_items [itemLong] apiDefault = [mkArticle apiDefault itemLong] from rfl]
        exact List.mem_singleton_self _)

/-- Claim C5 (confirmed): whenever `collect` returns a result, that result
is the prefix of the concatenated per-source record sequences truncated to
the maximum item count, and its length is `min k total` where `total` is
the number of records produced across all enabled sources. -/
theorem collect_truncation_law (cfg : SourcesConfig) (w : World) (k : Nat)
    (out : List Article) (h : collect cfg w k = .ok out) :
    ∃ reqs total, collectRun cfg w = .ok (reqs, total) ∧
      out = total.take k ∧ out.length = min k total.length := by
  unfold collect at h
  cases hcr : collectRun cfg w with
  | error e => rw [hcr] at h; exact absurd h (by simp [Except.map])
  | ok r =>
    rw [hcr] at h
    have hout : r.2.take k = out := by
      have : Except.ok (ε := Unit) (r.2.take k) = .ok out := by
        rw [← h]
        rfl
      exact Except.ok.inj this
    exact ⟨r.1, r.2, rfl, hout.symm, by rw [← hout, List.length_take]⟩

/-- Witness for `collect_truncation_law` at a concrete configuration. -/
theorem collect_truncation_law_witness :
    ∃ reqs total, collectRun cfgPlain worldDown = .ok (reqs, total) ∧
      ([] : List Article) = total.take 5 ∧
      ([] : List Article).length = min 5 total.length :=
  collect_truncation_law cfgPlain worldDown 5 [] rfl

/-- Claim C6 (corrected), counterexample: the claim's text — a keyword that
is a case-insensitive substring of the lowercased concatenation of title
and content — classifies title "G", content "PT" as "大模型" (the
concatenation "gpt" contains keyword "GPT"), but the code lowercases
`title + " " + content`, i.e. "g pt", which no keyword matches, so
`categorize_article` returns the default "其他". -/
theorem classifier_space_counterexample :
    categorize_article "G" "PT" = "其他" ∧
    classifyClaim TECH_CATEGORIES "G" "PT" = "大模型" := by
  constructor
  · rfl
  · rfl

/-- Claim C6 (corrected, amended): the classifier is pure and total and,
for every title, content, and category table, returns the first category in
table order having some keyword that is a case-insensitive substring of the
lowercased concatenation of title, a single separating space, and content —
or the fixed default "其他" when no keyword of any category matches. -/
theorem classifier_first_match (table : List (String × List String))
    (title content : String) :
    categorizeWith table title content = classifySpec table title content :=
  catLoop_eq_find (pyLower (title ++ " " ++ content)) table

/-- Claim C7 (confirmed): the normalizer emits exactly the records of the
items whose resolved title is truthy (for a string title: non-empty), in
input order, dropping the others without error; every emitted record has a
truthy — hence, when a string, non-empty — title. -/
theorem normalizer_title_filter (items : List PyVal) (cfg : ApiConfig) :
    parse_items items cfg =
      items.filterMap (fun it =>
        if pyTruthy (resolveField it cfg.title_path) then some (mkArticle cfg it)
        else Option.none) ∧
    ∀ r ∈ parse_items items cfg, pyTruthy r.title = true ∧
      ∀ s, r.title = PyVal.str s → s ≠ "" := by
  refine ⟨parse_items_filterMap cfg items, ?_⟩
  intro r hr
  rw [parse_items_filterMap cfg items] at hr
  obtain ⟨it, hit, hsome⟩ := List.mem_filterMap.mp hr
  by_cases h : pyTruthy (resolveField it cfg.title_path) = true
  · rw [if_pos h] at hsome
    obtain rfl : mkArticle cfg it = r := Option.some.inj hsome
    have htitle : (mkArticle cfg it).title = resolveField it cfg.title_path := rfl
    constructor
    · rw [htitle]; exact h
    · intro s hs
      rw [htitle] at hs
      rw [hs] at h
      simpa [pyTruthy] using h
  · rw [if_neg h] at hsome
    exact absurd hsome (by simp)

/-- Witness for `normalizer_title_filter` at a concrete item list. -/
theorem normalizer_title_filter_witness :
    parse_items [itemLong, PyVal.dict []] apiDefault =
      [itemLong, PyVal.dict []].filterMap (fun it =>
        if pyTruthy (resolveField it apiDefault.title_path) then some (mkArticle apiDefault it)
        else Option.none) :=
  (normalizer_title_filter [itemLong, PyVal.dict []] apiDefault).1

/-- Claim C8 (confirmed): a source whose selected api block has an empty
endpoint — or no api block at all — issues zero HTTP requests and produces
zero normalized records, and this is not an error: `fetch` returns the pair
of empty lists. -/
theorem empty_endpoint_noop (src : SourceConfig) (loads : String → Except Unit PyVal)
    (env : Nat → Except Unit PyVal) (ts : Nat)
    (h : ∀ a, selectApi src = some a → a.api_url = "") :
    fetch src loads env ts = .ok ([], []) := by
  unfold fetch
  cases hsel : selectApi src with
  | none => rfl
  | some a =>
    have hu := h a hsel
    have hfja : fetch_json_api a loads env ts = .ok ([], []) := by
      unfold fetch_json_api
      rw [if_pos (by simp [hu])]
    show Except.map (fun r => (r.1, parse_items r.2 a)) (fetch_json_api a loads env ts) = _
    rw [hfja]
    rfl

/-- Witness for `empty_endpoint_noop` at a source with no api block. -/
theorem empty_endpoint_noop_witness :
    fetch srcNoApi loadsFail (worldDown.resp 0) 999 = .ok ([], []) :=
  empty_endpoint_noop srcNoApi loadsFail (worldDown.resp 0) 999
    (fun _ h => Option.noConfusion h)

/-- Claim C9 (corrected), counterexample: the substituted values "ts" and
"7" contain no placeholder token, yet substitution is not idempotent on the
template "A\x7b\x7bts\x7d\x7dB": the first pass consumes the inner
placeholder and thereby assembles a fresh one, which only the second pass
consumes. -/
theorem substitution_not_idempotent :
    strContains "ts" "{ts}" = false ∧ strContains "ts" "{page}" = false ∧
    strContains "7" "{ts}" = false ∧ strContains "7" "{page}" = false ∧
    substTpl "ts" "7" (substTpl "ts" "7" "A\x7b\x7bts\x7d\x7dB") ≠
      substTpl "ts" "7" "A\x7b\x7bts\x7d\x7dB" := by
  refine ⟨rfl, rfl, rfl, rfl, ?_⟩
  decide

/-- Claim C9 (corrected, amended): template substitution is idempotent for
every template string, provided each substituted value is non-empty and
contains no character occurring in a placeholder token — in particular for
the decimal digit strings the fetcher actually substitutes. -/
theorem substitution_idempotent (ts pg : String)
    (hts : ts.data ≠ []) (hpg : pg.data ≠ [])
    (hts1 : ∀ a ∈ ts.data, a ∉ ("{ts}".data ++ "{page}".data))
    (hpg1 : ∀ a ∈ pg.data, a ∉ ("{ts}".data ++ "{page}".data))
    (s : String) :
    substTpl ts pg (substTpl ts pg s) = substTpl ts pg s := by
  have hT : ("{ts}".data : List Char) ≠ [] := by decide
  have hP : ("{page}".data : List Char) ≠ [] := by decide
  have h1 : ¬ ("{ts}".data <:+: replaceC "{ts}".data ts.data s.data) :=
    pattern_not_in_replaceC "{ts}".data ts.data hT hts
      (fun a ha hm => hts1 a ha (List.mem_append_left _ hm))
      s.data.length s.data le_rfl
  have h2 : ¬ ("{ts}".data <:+:
      replaceC "{page}".data pg.data (replaceC "{ts}".data ts.data s.data)) :=
    no_new_occurrence "{page}".data pg.data "{ts}".data hT hpg
      (fun a ha hm => hpg1 a ha (List.mem_append_left _ hm))
      (replaceC "{ts}".data ts.data s.data).length _ le_rfl h1
  have h4 : ¬ ("{page}".data <:+:
      replaceC "{page}".data pg.data (replaceC "{ts}".data ts.data s.data)) :=
    pattern_not_in_replaceC "{page}".data pg.data hP hpg
      (fun a ha hm => hpg1 a ha (List.mem_append_right _ hm))
      (replaceC "{ts}".data ts.data s.data).length _ le_rfl
  show String.mk (replaceC "{page}".data pg.data (replaceC "{ts}".data ts.data
      (replaceC "{page}".data pg.data (replaceC "{ts}".data ts.data s.data)))) =
    String.mk (replaceC "{page}".data pg.data (replaceC "{ts}".data ts.data s.data))
  rw [replaceC_no_occurrence "{ts}".data ts.data _ h2,
    replaceC_no_occurrence "{page}".data pg.data _ h4]

/-- Witness for `substitution_idempotent` with the digit values "123" and
"7" on a template containing both placeholders. -/
theorem substitution_idempotent_witness :
    substTpl "123" "7" (substTpl "123" "7" "x{ts}y{page}z") =
      substTpl "123" "7" "x{ts}y{page}z" :=
  substitution_idempotent "123" "7" (by decide) (by decide) (by decide) (by decide)
    "x{ts}y{page}z"

/-- Claim C10 (confirmed): `collect` consults only the groups named
"daily" and "web" — two configurations agreeing on those two groups
produce identical output, so sources in any other group are never fetched
and contribute nothing; the two groups are consumed in that fixed order;
and a source whose `enabled` field is absent is processed exactly like one
with `enabled = true`. -/
theorem collect_groups_daily_web (cfg cfg' : SourcesConfig) (w : World) (k : Nat)
    (hd : sget cfg "daily" = sget cfg' "daily")
    (hw : sget cfg "web" = sget cfg' "web") :
    collect cfg w k = collect cfg' w k ∧
    (∀ d we, collectSources w 0 (sget cfg "daily") = .ok d →
      collectSources w d.1 (sget cfg "web") = .ok we →
      collectRun cfg w = .ok (d.2.1 ++ we.2.1, d.2.2 ++ we.2.2)) ∧
    (∀ (src : SourceConfig) (rest : List SourceConfig) (i : Nat),
      src.enabled = Option.none →
      collectSources w i (src :: rest) =
        collectSources w i ({ src with enabled := some true } :: rest)) := by
  refine ⟨?_, ?_, ?_⟩
  · unfold collect collectRun
    rw [hd, hw]
  · intro d we hdr hwr
    unfold collectRun
    rw [hdr]
    show (collectSources w d.1 (sget cfg "web")).map _ = _
    rw [hwr]
    rfl
  · intro src rest i he
    cases src with
    | mk n e a pg =>
      cases he
      rfl

/-- Witness for `collect_groups_daily_web`: a configuration with an extra
group (holding a source that would crash if fetched) collects exactly like
the configuration without it. -/
theorem collect_groups_daily_web_witness :
    collect (⟨[("extra", [srcBadHeader]), ("daily", [srcPlain])]⟩ : SourcesConfig)
        worldDown 7 =
      collect cfgPlain worldDown 7 :=
  (collect_groups_daily_web
    (⟨[("extra", [srcBadHeader]), ("daily", [srcPlain])]⟩ : SourcesConfig)
    cfgPlain worldDown 7 rfl rfl).1
